import Mathlib

/-!
Verification development for the home-calendar repository.

The subject of the claims is the occurrence materializer in
`src/services/calendarService.js` (function `parseIcsData` and the aggregation
entry point `getCalendarEventsFromUrls`), which expands parsed iCalendar event
records into concrete occurrences inside a query window, in a target timezone.

Shallow embedding conventions:
- Instants are integers: milliseconds since the Unix epoch (JS `Date.getTime()`).
- A timezone is modelled by its offset function (milliseconds to add to a UTC
  instant to obtain the local wall-clock milliseconds).  Conversions from a
  wall-clock time back to an instant follow the fixed-point search that the
  luxon library performs (`fixOffset`), seeded with a guess offset, exactly as
  in luxon `src/datetime.js`.
- Decoding raw ICS text into event records is done by the external `node-ical`
  collaborator (out of scope per the specification, section 6); the embedding
  therefore takes a list of already-decoded `EventRecord` values where the
  JavaScript function takes the raw string.
- The external recurrence iterator (the `rrule` library) is embedded for the
  feature subset the repository uses: FREQ in YEARLY/MONTHLY/WEEKLY/DAILY with
  INTERVAL, COUNT, UNTIL, simple BYDAY, BYMONTHDAY and BYMONTH parts, including
  the dtstart-derived defaults that `rrule` `parseoptions` injects and the
  `Invalid frequency` error its constructor raises when `freq` is absent.
- JavaScript exceptions are modelled with `Except String`.
-/

namespace HomeCalendar

/-! ### Millisecond arithmetic -/

def msPerSec : Int := 1000
def msPerMin : Int := 60000
def msPerHour : Int := 3600000
def msPerDay : Int := 86400000

/-- Hour-of-day of a wall-clock millisecond value. -/
def wallHour (w : Int) : Int := (w % msPerDay) / msPerHour

/-- Minute-of-hour of a wall-clock millisecond value. -/
def wallMinute (w : Int) : Int := (w % msPerHour) / msPerMin

/-- Second-of-minute of a wall-clock millisecond value. -/
def wallSecond (w : Int) : Int := (w % msPerMin) / msPerSec

/-- Replace the hour, minute and second fields of a wall-clock millisecond
value, keeping its calendar day and its millisecond-of-second field.  This is
luxon `DateTime.set` with an hour/minute/second object. -/
def setHMS (w h m s : Int) : Int :=
  (w / msPerDay) * msPerDay + h * msPerHour + m * msPerMin + s * msPerSec + w % msPerSec

/-! ### Civil (proleptic Gregorian) calendar, days since 1970-01-01 -/

structure Civil where
  year : Int
  month : Int
  day : Int
deriving DecidableEq, Repr

/-- Days since the epoch of a civil date (standard era-based algorithm). -/
def daysFromCivil (y m d : Int) : Int :=
  let y := y - (if m ≤ 2 then 1 else 0)
  let era := y / 400
  let yoe := y - era * 400
  let doy := (153 * (m + (if 2 < m then -3 else 9)) + 2) / 5 + d - 1
  let doe := yoe * 365 + yoe / 4 - yoe / 100 + doy
  era * 146097 + doe - 719468

/-- Civil date of a day count since the epoch (inverse of `daysFromCivil`). -/
def civilFromDays (z : Int) : Civil :=
  let z := z + 719468
  let era := z / 146097
  let doe := z - era * 146097
  let yoe := (doe - doe / 1460 + doe / 36524 - doe / 146096) / 365
  let y := yoe + era * 400
  let doy := doe - (365 * yoe + yoe / 4 - yoe / 100)
  let mp := (5 * doy + 2) / 153
  let d := doy - (153 * mp + 2) / 5 + 1
  let m := mp + (if mp < 10 then 3 else -9)
  ⟨y + (if m ≤ 2 then 1 else 0), m, d⟩

/-- UTC instant of a civil date and time of day. -/
def mkUtc (y m d h mi s msv : Int) : Int :=
  daysFromCivil y m d * msPerDay + h * msPerHour + mi * msPerMin + s * msPerSec + msv

/-- Weekday of a day count, in rrule coding: 0 = Monday .. 6 = Sunday.
1970-01-01 (day 0) was a Thursday (code 3). -/
def weekdayOfDay (day : Int) : Int := (day + 3) % 7

/-- UTC calendar month (1..12) of an instant. -/
def utcMonth (t : Int) : Int := (civilFromDays (t / msPerDay)).month

/-! ### Timezones -/

/-- A timezone, modelled by its offset function: milliseconds to add to a UTC
instant to obtain local wall-clock milliseconds (negative west of Greenwich). -/
structure Zone where
  offsetAtInstant : Int → Int

/-- Local wall-clock milliseconds of an instant. -/
def Zone.toWall (z : Zone) (t : Int) : Int := t + z.offsetAtInstant t

/-- The fixed-point search luxon uses to turn a local wall-clock time into an
instant, seeded with a guess offset (luxon `fixOffset`, with offsets in
milliseconds instead of minutes).  At a spring-forward gap it lands past the
gap; at a fall-back ambiguity it keeps the guess when the guess is consistent. -/
def fixOffset (z : Zone) (wall guess : Int) : Int :=
  let u1 := wall - guess
  let o2 := z.offsetAtInstant u1
  if o2 = guess then u1
  else
    let u2 := wall - o2
    let o3 := z.offsetAtInstant u2
    if o3 = o2 then u2 else wall - min o2 o3

/-- Wall-clock time to instant with the canonical guess (the offset the zone
assigns to the wall value read as an instant).  Used where luxon builds a
DateTime from an object of local fields; at unambiguous local times the result
does not depend on the guess. -/
def Zone.fromWall (z : Zone) (w : Int) : Int := fixOffset z w (z.offsetAtInstant w)

/-- Local calendar day number (days since epoch of the local date) of an
instant; equality of local ISO dates is equality of these numbers. -/
def localDay (z : Zone) (t : Int) : Int := (z.toWall t) / msPerDay

/-- Local hour of day of an instant. -/
def localHour (z : Zone) (t : Int) : Int := wallHour (z.toWall t)

/-- Local minute of an instant. -/
def localMinute (z : Zone) (t : Int) : Int := wallMinute (z.toWall t)

/-- Local second of an instant. -/
def localSecond (z : Zone) (t : Int) : Int := wallSecond (z.toWall t)

/-- Local (hour, minute, second) triple of an instant. -/
def localHMS (z : Zone) (t : Int) : Int × Int × Int :=
  (localHour z t, localMinute z t, localSecond z t)

/-- Local month (1..12) of an instant. -/
def localMonth (z : Zone) (t : Int) : Int := (civilFromDays (localDay z t)).month

/-- Instant of local midnight of a local day number (luxon `startOf` day /
`fromObject` with zeroed time fields). -/
def midnightInstant (z : Zone) (day : Int) : Int := z.fromWall (day * msPerDay)

/-! ### America/New_York for 2024-2026

Offset intervals of the IANA zone America/New_York for the years the concrete
scenarios live in: EDT (UTC-4) between the second Sunday of March 07:00 UTC and
the first Sunday of November 06:00 UTC, EST (UTC-5) otherwise. -/

def nySpring2024 : Int := mkUtc 2024 3 10 7 0 0 0
def nyFall2024 : Int := mkUtc 2024 11 3 6 0 0 0
def nySpring2025 : Int := mkUtc 2025 3 9 7 0 0 0
def nyFall2025 : Int := mkUtc 2025 11 2 6 0 0 0
def nySpring2026 : Int := mkUtc 2026 3 8 7 0 0 0
def nyFall2026 : Int := mkUtc 2026 11 1 6 0 0 0

def nyOffsetAtInstant (t : Int) : Int :=
  if (nySpring2024 ≤ t ∧ t < nyFall2024) ∨ (nySpring2025 ≤ t ∧ t < nyFall2025)
      ∨ (nySpring2026 ≤ t ∧ t < nyFall2026) then
    -4 * msPerHour
  else
    -5 * msPerHour

def nyZone : Zone := ⟨nyOffsetAtInstant⟩

/-! ### Data model

`EventRecord` is the decoded VEVENT as `node-ical` hands it to `parseIcsData`:
`datetype` distinguishes all-day (`date`) from timed (`dateTime`) events,
`rrule` is the parsed recurrence rule when present, `exdate` the EXDATE
instants, `recurrences` the RECURRENCE-ID override records merged under the
same UID.  `Occurrence` is one element of the array `parseIcsData` returns;
fields the JavaScript object literal omits are `none`. -/

inductive DateType | date | dateTime
deriving DecidableEq, Repr

/-- rrule frequencies used by the repository. -/
inductive Freq | yearly | monthly | weekly | daily
deriving DecidableEq, Repr

/-- The structured recurrence rule (the union of the fields the code reads off
`item.rrule.options` / recovers from the RRULE text).  `freq` is `none` when
the frequency was missing or unrecognized. -/
structure RRuleData where
  freq : Option Freq
  interval : Option Nat
  count : Option Nat
  untilDate : Option Int
  byweekday : Option (List Int)
  bymonthday : Option (List Int)
  bymonth : Option (List Int)
deriving DecidableEq, Repr

/-- A RECURRENCE-ID override record (a companion VEVENT with the same UID). -/
structure OverrideRecord where
  recurrenceid : Int
  start : Int
  endTime : Int
  summary : Option String
  description : Option String
  location : Option String
deriving DecidableEq, Repr

structure EventRecord where
  summary : Option String
  description : Option String
  location : Option String
  start : Int
  endTime : Int
  datetype : DateType
  rrule : Option RRuleData
  exdate : List Int
  recurrences : List OverrideRecord
deriving DecidableEq, Repr

/-- One element of the array `parseIcsData` pushes onto `allEvents`. -/
structure Occurrence where
  title : Option String
  description : Option String
  location : Option String
  start : Int
  endTime : Int
  allDay : Option Bool
  calendarUrl : String
deriving DecidableEq, Repr

/-- JavaScript `a || b` on optional strings: the empty string is falsy. -/
def jsOr (a b : Option String) : Option String :=
  match a with
  | some s => if s = "" then b else some s
  | none => b

/-- JavaScript truthiness of an optional number used in a conditional spread
(`...(x && \x7b x \x7d)`): zero is falsy, so it is dropped like an absent value. -/
def truthyNat (a : Option Nat) : Option Nat :=
  match a with
  | some 0 => none
  | x => x

/-- `adjustEndForAllDayEvents` (calendarService.js lines 42-51): for all-day
events the exclusive DTEND is pulled back by one millisecond. -/
def adjustEndForAllDayEvents (ev : EventRecord) : Int :=
  if ev.datetype = DateType.date then ev.endTime - 1 else ev.endTime

/-! ### The external recurrence iterator (rrule library)

`RuleOptions` is the options object handed to the `RRule` constructor.
`rruleOccs` enumerates the occurrences of such a rule up to a bound, in
ascending order, mirroring the `rrule` library for the feature subset the
repository uses: candidate days are walked from `dtstart`, filtered by the
BY-parts (with the dtstart-derived defaults `rrule` `parseoptions` injects
when no day-selecting BY-part is given), stamped with the time of day of
`dtstart`, then truncated by UNTIL (inclusive) and COUNT. -/

structure RuleOptions where
  freq : Option Freq
  dtstart : Int
  byweekday : Option (List Int)
  bymonthday : Option (List Int)
  bymonth : Option (List Int)
  count : Option Nat
  interval : Option Nat
  untilDate : Option Int
deriving DecidableEq, Repr

/-- Does a candidate day match the rule (dtstart day `d0`)?  Implements the
BY-part filters plus the interval period check of the rrule iterator. -/
def rruleMatchesDay (f : Freq) (d0 : Int) (interval : Int)
    (bw bmd bm : Option (List Int)) (day : Int) : Bool :=
  let c := civilFromDays day
  let c0 := civilFromDays d0
  let inject := bmd = none ∧ bw = none
  let effBm : Option (List Int) :=
    if f = Freq.yearly ∧ inject ∧ bm = none then some [c0.month] else bm
  let effBmd : Option (List Int) :=
    if (f = Freq.yearly ∨ f = Freq.monthly) ∧ inject then some [c0.day] else bmd
  let effBw : Option (List Int) :=
    if f = Freq.weekly ∧ inject then some [weekdayOfDay d0] else bw
  let monthOk := match effBm with | none => true | some l => l.contains c.month
  let domOk := match effBmd with | none => true | some l => l.contains c.day
  let wdOk := match effBw with | none => true | some l => l.contains (weekdayOfDay day)
  let periodOk : Bool :=
    match f with
    | Freq.daily => (day - d0) % interval == 0
    | Freq.weekly => ((day + 3) / 7 - (d0 + 3) / 7) % interval == 0
    | Freq.monthly =>
        ((12 * c.year + c.month) - (12 * c0.year + c0.month)) % interval == 0
    | Freq.yearly => (c.year - c0.year) % interval == 0
  monthOk && domOk && wdOk && periodOk

/-- The candidate occurrences (before UNTIL and COUNT truncation) with instant
at most `upTo`, ascending: every day from the dtstart day that matches the
rule, stamped with the dtstart time of day. -/
def rruleCandidates (ro : RuleOptions) (f : Freq) (upTo : Int) : List Int :=
  let d0 := ro.dtstart / msPerDay
  let tod := ro.dtstart % msPerDay
  let interval : Int := Int.ofNat (ro.interval.getD 1)
  let n : Nat := if upTo < ro.dtstart then 0 else ((upTo - ro.dtstart) / msPerDay).toNat + 1
  (List.range n).filterMap (fun i =>
    let day := d0 + Int.ofNat i
    let t := day * msPerDay + tod
    if t ≤ upTo ∧ rruleMatchesDay f d0 interval ro.byweekday ro.bymonthday ro.bymonth day = true
    then some t else none)

/-- All occurrences of the rule with instant at most `upTo`, ascending:
the candidates truncated by UNTIL (inclusive) and COUNT. -/
def rruleOccs (ro : RuleOptions) (f : Freq) (upTo : Int) : List Int :=
  let cands :=
    match ro.untilDate with
    | none => rruleCandidates ro f upTo
    | some u => (rruleCandidates ro f upTo).filter (fun t => decide (t ≤ u))
  match ro.count with
  | none => cands
  | some c => cands.take c

/-- `rruleSet.between(a, b)` with the default exclusive bounds. -/
def rruleBetween (ro : RuleOptions) (f : Freq) (a b : Int) : List Int :=
  (rruleOccs ro f b).filter (fun t => decide (a < t) && decide (t < b))

/-- Whether `rruleSet.after(a, true)` yields an occurrence that is at most `b`
(the guard at calendarService.js lines 157-161 and 258-262 keeps the event
exactly when such an occurrence exists, since occurrences are ascending). -/
def rruleHasOccInClosed (ro : RuleOptions) (f : Freq) (a b : Int) : Bool :=
  (rruleOccs ro f b).any (fun t => decide (a ≤ t))

/-! ### Recurring timed path (calendarService.js lines 77-198) -/

/-- The DST correction applied to each rrule-generated UTC date (lines
172-189): read the anchor wall time in the zone, transplant its
hour/minute/second onto the local rendering of the generated date, and resolve
the resulting wall time back to an instant, seeding the luxon offset search
with the offset of the generated date (the current offset of the DateTime the
`set` call runs on). -/
def correctedStartInstant (z : Zone) (anchorStart date : Int) : Int :=
  let aw := z.toWall anchorStart
  let dw := z.toWall date
  let newWall := setHMS dw (wallHour aw) (wallMinute aw) (wallSecond aw)
  fixOffset z newWall (z.offsetAtInstant date)

/-- The conflict-free pure-UTC rule the code builds at lines 80-115: DTSTART is
replaced by the UTC instant of the first occurrence, and when the original rule
carried a BYDAY part it is replaced by the UTC weekday of that instant.  All
other parts of the RRULE line survive the string rewrite unchanged. -/
def rewrittenTimedOptions (ev : EventRecord) (r : RRuleData) : RuleOptions :=
  { freq := r.freq
    dtstart := ev.start
    byweekday := r.byweekday.map (fun _ => [weekdayOfDay (ev.start / msPerDay)])
    bymonthday := r.bymonthday
    bymonth := r.bymonth
    count := r.count
    interval := r.interval
    untilDate := r.untilDate }

/-- The rrule-generated candidate instants inside the exclusive window (line
165). -/
def timedDates (ev : EventRecord) (r : RRuleData) (f : Freq) (sr er : Int) : List Int :=
  rruleBetween (rewrittenTimedOptions ev r) f sr er

/-- The override occurrence pushed for a RECURRENCE-ID record (lines 142-151),
with the JavaScript fallbacks to the base event fields. -/
def overrideOccurrence (ev : EventRecord) (ov : OverrideRecord) (url : String) : Occurrence :=
  { title := jsOr ov.summary ev.summary
    description := jsOr ov.description ev.description
    location := jsOr ov.location ev.location
    start := ov.start
    endTime := ov.endTime
    allDay := none
    calendarUrl := url }

/-- The override occurrences pushed by the recurrences loop (lines 134-153):
one per override record whose start lies in the closed query window, in record
order, pushed before any base-rule occurrence. -/
def overridePart (ev : EventRecord) (sr er : Int) (url : String) : List Occurrence :=
  ev.recurrences.filterMap (fun ov =>
    if sr ≤ ov.start ∧ ov.start ≤ er then some (overrideOccurrence ev ov url) else none)

/-- The occurrence pushed for one rrule-generated date of a recurring timed
event (lines 191-197): corrected start, corrected start plus the fixed
duration, no description or location keys. -/
def timedBaseOcc (z : Zone) (ev : EventRecord) (duration : Int) (url : String)
    (date : Int) : Occurrence :=
  { title := ev.summary
    description := none
    location := none
    start := correctedStartInstant z ev.start date
    endTime := correctedStartInstant z ev.start date + duration
    allDay := some false
    calendarUrl := url }

/-- The base-rule occurrences of a recurring timed event (lines 155-198):
guarded by the `after` check, one occurrence per generated date that is not an
exact-instant match of a RECURRENCE-ID and whose corrected local date is not an
EXDATE local date. -/
def timedBaseOccs (z : Zone) (ev : EventRecord) (r : RRuleData) (f : Freq)
    (sr er : Int) (url : String) : List Occurrence :=
  let exdateDays := ev.exdate.map (fun ex => localDay z ex)
  let modifiedIds := ev.recurrences.map (fun ov => ov.recurrenceid)
  let duration := adjustEndForAllDayEvents ev - ev.start
  if rruleHasOccInClosed (rewrittenTimedOptions ev r) f sr er then
    (timedDates ev r f sr er).filterMap (fun date =>
      if modifiedIds.contains date then none
      else if exdateDays.contains (localDay z (timedBaseOcc z ev duration url date).start) then none
      else some (timedBaseOcc z ev duration url date))
  else []

/-- The whole recurring timed branch.  When the frequency is absent the
`rrulestr` re-parse of the rewritten rule text raises `Invalid frequency`
inside the rrule library, which propagates out of `parseIcsData`. -/
def materializeTimedRecurring (z : Zone) (ev : EventRecord) (r : RRuleData)
    (sr er : Int) (url : String) : Except String (List Occurrence) :=
  match r.freq with
  | none => Except.error "Invalid frequency"
  | some f => Except.ok (overridePart ev sr er url ++ timedBaseOccs z ev r f sr er url)

/-! ### Recurring all-day path (calendarService.js lines 199-306) -/

/-- The clean options object built at lines 222-242: BY-parts and bounds are
copied through JavaScript truthiness-guarded spreads, and a yearly rule with no
BYMONTH gets the month of the anchor start injected (lines 233-239). -/
def buildRuleOptions (r : RRuleData) (dtstart : Int) : RuleOptions :=
  let bymonth :=
    if r.freq = some Freq.yearly ∧ r.bymonth = none then some [utcMonth dtstart] else r.bymonth
  { freq := r.freq
    dtstart := dtstart
    byweekday := r.byweekday
    bymonthday := r.bymonthday
    bymonth := bymonth
    count := truthyNat r.count
    interval := truthyNat r.interval
    untilDate := r.untilDate }

/-- The UTC calendar days (day numbers) of the rrule dates generated over the
window expanded by 24 hours on each side (lines 267-277). -/
def allDayRuleDays (ro : RuleOptions) (f : Freq) (sr er : Int) : List Int :=
  (rruleBetween ro f (sr - msPerDay) (er + msPerDay)).map (fun date => date / msPerDay)

/-- The occurrence pushed for one generated day of a recurring all-day event
(lines 299-305): local midnight of the day, plus the raw DTSTART-to-DTEND
duration; no description or location keys. -/
def allDayBaseOcc (z : Zone) (ev : EventRecord) (duration : Int) (url : String)
    (day : Int) : Occurrence :=
  { title := ev.summary
    description := none
    location := none
    start := midnightInstant z day
    endTime := midnightInstant z day + duration
    allDay := some true
    calendarUrl := url }

/-- The base occurrences of a recurring all-day event (lines 247-306): the
search window is expanded by 24 hours on each side, each generated date is read
as a UTC calendar date and re-anchored at local midnight in the query zone,
then filtered back to the closed query window and against the EXDATE local
dates.  The guard at lines 258-262 uses the unexpanded window. -/
def allDayBaseOccs (z : Zone) (ev : EventRecord) (ro : RuleOptions) (f : Freq)
    (sr er : Int) (url : String) : List Occurrence :=
  let exdateDays := ev.exdate.map (fun ex => localDay z ex)
  let duration := ev.endTime - ev.start
  if rruleHasOccInClosed ro f sr er then
    (allDayRuleDays ro f sr er).filterMap (fun day =>
      if midnightInstant z day < sr ∨ er < midnightInstant z day then none
      else if exdateDays.contains day then none
      else some (allDayBaseOcc z ev duration url day))
  else []

/-- The whole recurring all-day branch.  With a missing or unrecognized
frequency the code logs a warning (lines 240-242) and then calls
`new RRule(ruleOptions)` anyway (line 245), whose option parsing raises
`Invalid frequency`. -/
def materializeAllDayRecurring (z : Zone) (ev : EventRecord) (r : RRuleData)
    (sr er : Int) (url : String) : Except String (List Occurrence) :=
  let ro := buildRuleOptions r ev.start
  match ro.freq with
  | none => Except.error "Invalid frequency"
  | some f => Except.ok (allDayBaseOccs z ev ro f sr er url)

/-! ### Non-recurring path (calendarService.js lines 307-344) -/

/-- The closed integer interval [a, b] as a list of day numbers. -/
def daysFromTo (a b : Int) : List Int :=
  (List.range (b - a + 1).toNat).map (fun i => a + Int.ofNat i)

/-- One per-day occurrence of a non-recurring all-day event: local midnight to
local end of day (the next local midnight minus one millisecond, luxon
`endOf` day). -/
def allDayOcc (z : Zone) (ev : EventRecord) (url : String) (day : Int) : Occurrence :=
  { title := ev.summary
    description := none
    location := none
    start := midnightInstant z day
    endTime := midnightInstant z (day + 1) - 1
    allDay := some true
    calendarUrl := url }

/-- The single occurrence of a non-recurring timed event (lines 334-342). -/
def nonRecTimedOcc (ev : EventRecord) (url : String) : Occurrence :=
  { title := ev.summary
    description := ev.description
    location := ev.location
    start := ev.start
    endTime := adjustEndForAllDayEvents ev
    allDay := some false
    calendarUrl := url }

/-- The non-recurring branch: all-day events are split into one occurrence per
local calendar day of the inclusive span, each kept exactly when its local
midnight lies in the closed query window (lines 309-329); timed events are kept
exactly when they overlap the window (lines 330-343). -/
def materializeNonRecurring (z : Zone) (ev : EventRecord) (sr er : Int)
    (url : String) : List Occurrence :=
  let adjEnd := adjustEndForAllDayEvents ev
  if ev.datetype = DateType.date ∧ ev.start < adjEnd then
    (daysFromTo (localDay z ev.start) (localDay z adjEnd)).filterMap (fun day =>
      if sr ≤ midnightInstant z day ∧ midnightInstant z day ≤ er
      then some (allDayOcc z ev url day) else none)
  else if ev.start < er ∧ sr < adjEnd then [nonRecTimedOcc ev url]
  else []

/-! ### Classification and the per-feed parser -/

/-- The classification at lines 77, 199 and 307: a recurring event is routed to
the timed transformation unless its datetype is `date`. -/
def parseOneEvent (z : Zone) (ev : EventRecord) (sr er : Int)
    (url : String) : Except String (List Occurrence) :=
  match ev.rrule with
  | some r =>
      if ev.datetype = DateType.date then materializeAllDayRecurring z ev r sr er url
      else materializeTimedRecurring z ev r sr er url
  | none => Except.ok (materializeNonRecurring z ev sr er url)

/-- `parseIcsData` over the decoded VEVENT list: occurrences accumulate in
event order; a JavaScript exception raised for any event aborts the whole call
(there is no try/catch in the function). -/
def parseIcsData (z : Zone) (events : List EventRecord) (sr er : Int)
    (url : String) : Except String (List Occurrence) :=
  match events with
  | [] => Except.ok []
  | ev :: rest =>
      match parseOneEvent z ev sr er url, parseIcsData z rest sr er url with
      | Except.error e, _ => Except.error e
      | Except.ok _, Except.error e => Except.error e
      | Except.ok occs, Except.ok restOccs => Except.ok (occs ++ restOccs)

/-! ### Aggregation entry point (calendarService.js lines 350-367)

`getCachedData` (fetch plus disk cache) and the ICS decode are the external
collaborators; a feed is modelled by its URL together with the outcome of
fetching and decoding it.  The JavaScript loop awaits each feed in order with
no try/catch, so the first failure rejects the whole call. -/

structure Feed where
  url : String
  fetched : Except String (List EventRecord)

/-- Fetch outcome composed with `parseIcsData` for one feed. -/
def feedParsed (z : Zone) (f : Feed) (sr er : Int) : Except String (List Occurrence) :=
  match f.fetched with
  | Except.error e => Except.error e
  | Except.ok evs => parseIcsData z evs sr er f.url

/-- `getCalendarEventsFromUrls`: sequential loop, concatenating each feed
result onto `allEvents`; no sorting and no per-feed error handling. -/
def getCalendarEventsFromUrls (z : Zone) (feeds : List Feed)
    (sr er : Int) : Except String (List Occurrence) :=
  match feeds with
  | [] => Except.ok []
  | f :: rest =>
      match feedParsed z f sr er, getCalendarEventsFromUrls z rest sr er with
      | Except.error e, _ => Except.error e
      | Except.ok _, Except.error e => Except.error e
      | Except.ok occs, Except.ok restOccs => Except.ok (occs ++ restOccs)

/-! ### Helper notions used by the theorems -/

/-- The occurrences of a list whose start falls on a given local calendar day. -/
def occsOnDay (z : Zone) (d : Int) (l : List Occurrence) : List Occurrence :=
  l.filter (fun o => localDay z o.start == d)

/-- The same event with its exception dates removed. -/
def clearExdate (ev : EventRecord) : EventRecord :=
  { ev with exdate := [] }

/-- Well-formedness of an event record: a timed event ends strictly after it
starts; an all-day event ends at least one (exclusive) day after it starts and,
in the zone at hand, every local midnight of its day span is more than one
millisecond before the next; every override record ends strictly after it
starts. -/
def EventWf (z : Zone) (ev : EventRecord) : Prop :=
  (ev.datetype = DateType.dateTime → ev.start < ev.endTime) ∧
  (ev.datetype = DateType.date →
    ev.start + msPerDay ≤ ev.endTime ∧
    ∀ day ∈ daysFromTo (localDay z ev.start) (localDay z (adjustEndForAllDayEvents ev)),
      midnightInstant z day + 1 < midnightInstant z (day + 1)) ∧
  ∀ ov ∈ ev.recurrences, ov.start < ov.endTime

/-! ### Concrete scenario inputs

The events below are the decoded forms of the ICS fixtures the specification
scenarios (and the repository test suite) use; query windows are the local
midnight bounds of the stated ranges in America/New_York.  All-day DTSTART
values follow the decoder convention of local midnight in the query zone. -/

/-- FREQ=WEEKLY;BYDAY=TU as rrule data (TU is rrule weekday 1). -/
def c1Rule : RRuleData :=
  { freq := some Freq.weekly, interval := none, count := none, untilDate := none
    byweekday := some [1], bymonthday := none, bymonth := none }

/-- FREQ=DAILY;COUNT=3 as rrule data. -/
def dailyCount3Rule : RRuleData :=
  { freq := some Freq.daily, interval := none, count := some 3, untilDate := none
    byweekday := none, bymonthday := none, bymonth := none }

/-- FREQ=YEARLY;BYMONTHDAY=8 as rrule data. -/
def c4Rule : RRuleData :=
  { freq := some Freq.yearly, interval := none, count := none, untilDate := none
    byweekday := none, bymonthday := some [8], bymonth := none }

/-- Weekly Tuesday 20:30 America/New_York event anchored 2024-10-29 (UTC
instant 2024-10-30T00:30Z). -/
def c1Event : EventRecord :=
  { summary := some "Recurring DST Event"
    description := none
    location := none
    start := mkUtc 2024 10 30 0 30 0 0
    endTime := mkUtc 2024 10 30 1 30 0 0
    datetype := DateType.dateTime
    rrule := some c1Rule
    exdate := []
    recurrences := [] }

def c1Sr : Int := mkUtc 2024 10 28 4 0 0 0
def c1Er : Int := mkUtc 2024 11 6 5 0 0 0

/-- Daily 02:30 America/New_York event anchored 2025-03-08 (UTC instant
2025-03-08T07:30Z), three occurrences, crossing the 2025 spring-forward gap. -/
def c1gEvent : EventRecord :=
  { summary := some "Spring DST Event"
    description := none
    location := none
    start := mkUtc 2025 3 8 7 30 0 0
    endTime := mkUtc 2025 3 8 8 30 0 0
    datetype := DateType.dateTime
    rrule := some dailyCount3Rule
    exdate := []
    recurrences := [] }

def c1gSr : Int := mkUtc 2025 3 7 5 0 0 0
def c1gEr : Int := mkUtc 2025 3 11 4 0 0 0

/-- Override record moving the 2024-11-11 10:00 instance to 12:30 local. -/
def c2Ov : OverrideRecord :=
  { recurrenceid := mkUtc 2024 11 11 15 0 0 0
    start := mkUtc 2024 11 11 17 30 0 0
    endTime := mkUtc 2024 11 11 18 0 0 0
    summary := some "Modified Event"
    description := none
    location := none }

/-- Daily 10:00 America/New_York event anchored 2024-11-10, three occurrences,
with the middle instance overridden by `c2Ov` (all in EST). -/
def c2Event : EventRecord :=
  { summary := some "Original Event"
    description := none
    location := none
    start := mkUtc 2024 11 10 15 0 0 0
    endTime := mkUtc 2024 11 10 16 0 0 0
    datetype := DateType.dateTime
    rrule := some dailyCount3Rule
    exdate := []
    recurrences := [c2Ov] }

def c2Sr : Int := mkUtc 2024 11 9 5 0 0 0
def c2Er : Int := mkUtc 2024 11 13 5 0 0 0

/-- Override record for the 2024-11-05 20:30 EST slot of the weekly event of
`c1Event` (RECURRENCE-ID instant 2024-11-06T01:30Z), moving it to 21:00. -/
def c2xOv : OverrideRecord :=
  { recurrenceid := mkUtc 2024 11 6 1 30 0 0
    start := mkUtc 2024 11 6 2 0 0 0
    endTime := mkUtc 2024 11 6 3 0 0 0
    summary := some "Rescheduled"
    description := none
    location := none }

/-- The weekly DST-crossing event of `c1Event` with the post-transition slot
overridden. -/
def c2xEvent : EventRecord :=
  { c1Event with recurrences := [c2xOv] }

/-- Daily 09:00 America/New_York event anchored 2024-11-01, three occurrences,
with the 2024-11-02 instance cancelled by EXDATE. -/
def c3Event : EventRecord :=
  { summary := some "Event with Exception"
    description := none
    location := none
    start := mkUtc 2024 11 1 13 0 0 0
    endTime := mkUtc 2024 11 1 14 0 0 0
    datetype := DateType.dateTime
    rrule := some dailyCount3Rule
    exdate := [mkUtc 2024 11 2 13 0 0 0]
    recurrences := [] }

/-- The same event with, in addition, an override record anchored on the
cancelled local date 2024-11-02. -/
def c3xEvent : EventRecord :=
  { c3Event with recurrences :=
      [{ recurrenceid := mkUtc 2024 11 2 13 0 0 0
         start := mkUtc 2024 11 2 14 0 0 0
         endTime := mkUtc 2024 11 2 15 0 0 0
         summary := some "Moved Anyway"
         description := none
         location := none }] }

def c3Sr : Int := mkUtc 2024 10 30 4 0 0 0
def c3Er : Int := mkUtc 2024 11 5 5 0 0 0

/-- Yearly all-day rule with only BYMONTHDAY=8, anchored 2024-12-08 (local
midnight America/New_York). -/
def c4Event : EventRecord :=
  { summary := some "Faulty Annual Event"
    description := none
    location := none
    start := mkUtc 2024 12 8 5 0 0 0
    endTime := mkUtc 2024 12 9 5 0 0 0
    datetype := DateType.date
    rrule := some c4Rule
    exdate := []
    recurrences := [] }

def c4Sr : Int := mkUtc 2024 11 1 4 0 0 0
def c4Er : Int := mkUtc 2025 2 1 5 0 0 0

/-- Non-recurring all-day event spanning 2024-11-04 .. 2024-11-06 (DTEND
exclusive 2024-11-07), local midnights in America/New_York. -/
def c5Event : EventRecord :=
  { summary := some "Vacation"
    description := none
    location := none
    start := mkUtc 2024 11 4 5 0 0 0
    endTime := mkUtc 2024 11 7 5 0 0 0
    datetype := DateType.date
    rrule := none
    exdate := []
    recurrences := [] }

def c5Sr : Int := mkUtc 2024 11 1 4 0 0 0
def c5Er : Int := mkUtc 2024 11 10 5 0 0 0

/-- Non-recurring timed event on 2024-11-04. -/
def c6EvEarly : EventRecord :=
  { summary := some "Earlier Event"
    description := some "first"
    location := some "here"
    start := mkUtc 2024 11 4 15 0 0 0
    endTime := mkUtc 2024 11 4 16 0 0 0
    datetype := DateType.dateTime
    rrule := none
    exdate := []
    recurrences := [] }

/-- Non-recurring timed event on 2024-11-05, listed before the earlier one. -/
def c6EvLate : EventRecord :=
  { summary := some "Later Event"
    description := none
    location := none
    start := mkUtc 2024 11 5 15 0 0 0
    endTime := mkUtc 2024 11 5 16 0 0 0
    datetype := DateType.dateTime
    rrule := none
    exdate := []
    recurrences := [] }

def c6Feed : Feed := { url := "feed1", fetched := Except.ok [c6EvLate, c6EvEarly] }

/-- The occurrence list the aggregation returns for the single feed above. -/
def c6ResultList : List Occurrence :=
  (getCalendarEventsFromUrls nyZone [c6Feed] c5Sr c5Er).toOption.getD []

def c7BadFeed : Feed := { url := "bad", fetched := Except.error "FeedFetchError" }
def c7GoodFeed : Feed := { url := "good", fetched := Except.ok [c6EvEarly] }

/-- All-day recurring event whose rule has a missing/unrecognized frequency. -/
def c8Event : EventRecord :=
  { summary := some "No Freq Event"
    description := none
    location := none
    start := mkUtc 2024 11 4 5 0 0 0
    endTime := mkUtc 2024 11 5 5 0 0 0
    datetype := DateType.date
    rrule := some
      { freq := none, interval := none, count := none, untilDate := none
        byweekday := none, bymonthday := none, bymonth := none }
    exdate := []
    recurrences := [] }

/-- The occurrence list materialized for the overridden daily event, used to
instantiate the occurrence-ordering invariant. -/
def c9WitnessList : List Occurrence :=
  (parseOneEvent nyZone c2Event c2Sr c2Er "u").toOption.getD []

/-- Zero-length timed event (DTSTART equal to DTEND) inside the window. -/
def c9ZeroEvent : EventRecord :=
  { summary := some "Instantaneous"
    description := none
    location := none
    start := mkUtc 2024 11 4 15 0 0 0
    endTime := mkUtc 2024 11 4 15 0 0 0
    datetype := DateType.dateTime
    rrule := none
    exdate := []
    recurrences := [] }

/-! ## Theorems -/

/-! ### Shared helper lemmas -/

theorem wallHour_bounds (w : Int) : 0 ≤ wallHour w ∧ wallHour w < 24 := by
  simp only [wallHour, msPerDay, msPerHour]
  omega

theorem wallMinute_bounds (w : Int) : 0 ≤ wallMinute w ∧ wallMinute w < 60 := by
  simp only [wallMinute, msPerHour, msPerMin]
  omega

theorem wallSecond_bounds (w : Int) : 0 ≤ wallSecond w ∧ wallSecond w < 60 := by
  simp only [wallSecond, msPerMin, msPerSec]
  omega

theorem wallHMS_setHMS (w h m s : Int) (hh0 : 0 ≤ h) (hh1 : h < 24)
    (hm0 : 0 ≤ m) (hm1 : m < 60) (hs0 : 0 ≤ s) (hs1 : s < 60) :
    wallHour (setHMS w h m s) = h ∧ wallMinute (setHMS w h m s) = m ∧
      wallSecond (setHMS w h m s) = s := by
  simp only [wallHour, wallMinute, wallSecond, setHMS, msPerDay, msPerHour, msPerMin, msPerSec]
  omega

theorem parseIcsData_singleton (z : Zone) (ev : EventRecord) (sr er : Int) (url : String) :
    parseIcsData z [ev] sr er url = parseOneEvent z ev sr er url := by
  cases h : parseOneEvent z ev sr er url with
  | error e => simp [parseIcsData, h]
  | ok occs => simp [parseIcsData, h]

theorem filterMap_guard_all {α β : Type} (l : List α) (p : α → Prop) [DecidablePred p]
    (g : α → β) (h : ∀ a ∈ l, p a) :
    l.filterMap (fun a => if p a then some (g a) else none) = l.map g := by
  induction l with
  | nil => rfl
  | cons a t ih =>
      simp only [List.filterMap_cons, List.map_cons, if_pos (h a (List.mem_cons_self a t))]
      rw [ih (fun b hb => h b (List.mem_cons_of_mem a hb))]

theorem filterMap_exdate_split {α : Type} (dates : List α) (skip : α → Prop)
    [DecidablePred skip] (mk : α → Occurrence) (q : Occurrence → Bool) :
    dates.filterMap (fun d => if skip d then none
        else if q (mk d) = true then none else some (mk d))
      = (dates.filterMap (fun d => if skip d then none else some (mk d))).filter
          (fun o => !q o) := by
  induction dates with
  | nil => rfl
  | cons d t ih =>
      by_cases hs : skip d
      · simp [hs, ih]
      · by_cases hq : q (mk d) = true
        · simp [hs, hq, ih]
        · simp [hs, hq, ih]

theorem occsOnDay_append (z : Zone) (d : Int) (l1 l2 : List Occurrence) :
    occsOnDay z d (l1 ++ l2) = occsOnDay z d l1 ++ occsOnDay z d l2 := by
  simp [occsOnDay, List.filter_append]

theorem occsOnDay_eq_nil (z : Zone) (d : Int) (l : List Occurrence)
    (h : ∀ o ∈ l, localDay z o.start ≠ d) : occsOnDay z d l = [] := by
  induction l with
  | nil => rfl
  | cons o t ih =>
      simp only [occsOnDay, List.filter_cons]
      have hne : (localDay z o.start == d) = false := by
        simp [h o (List.mem_cons_self o t)]
      simp only [hne, Bool.false_eq_true, if_false]
      exact ih (fun b hb => h b (List.mem_cons_of_mem o hb))

theorem mem_rruleCandidates {ro : RuleOptions} {f : Freq} {upTo t : Int}
    (h : t ∈ rruleCandidates ro f upTo) :
    ∃ day : Int, t = day * msPerDay + ro.dtstart % msPerDay ∧
      rruleMatchesDay f (ro.dtstart / msPerDay) (Int.ofNat (ro.interval.getD 1))
        ro.byweekday ro.bymonthday ro.bymonth day = true := by
  simp only [rruleCandidates] at h
  rw [List.mem_filterMap] at h
  obtain ⟨i, _, heq⟩ := h
  split at heq
  · next hcond =>
      refine ⟨ro.dtstart / msPerDay + Int.ofNat i, ?_, hcond.2⟩
      exact (Option.some.injEq _ _ ▸ heq).symm
  · exact absurd heq (by simp)

theorem mem_rruleOccs {ro : RuleOptions} {f : Freq} {upTo t : Int}
    (h : t ∈ rruleOccs ro f upTo) :
    ∃ day : Int, t = day * msPerDay + ro.dtstart % msPerDay ∧
      rruleMatchesDay f (ro.dtstart / msPerDay) (Int.ofNat (ro.interval.getD 1))
        ro.byweekday ro.bymonthday ro.bymonth day = true := by
  simp only [rruleOccs] at h
  have h2 : t ∈ (match ro.untilDate with
      | none => rruleCandidates ro f upTo
      | some u => (rruleCandidates ro f upTo).filter (fun t => decide (t ≤ u))) := by
    cases hcount : ro.count with
    | none => rw [hcount] at h; exact h
    | some c => rw [hcount] at h; exact List.mem_of_mem_take h
  have h3 : t ∈ rruleCandidates ro f upTo := by
    cases huntil : ro.untilDate with
    | none => rw [huntil] at h2; exact h2
    | some u => rw [huntil] at h2; exact List.mem_of_mem_filter h2
  exact mem_rruleCandidates h3

theorem rruleOccs_month {ro : RuleOptions} {f : Freq} {upTo t m : Int}
    (hbm : ro.bymonth = some [m]) (h : t ∈ rruleOccs ro f upTo) :
    utcMonth t = m := by
  obtain ⟨day, ht, hmatch⟩ := mem_rruleOccs h
  have hmOk : (civilFromDays day).month = m := by
    simp only [rruleMatchesDay, hbm, Bool.and_eq_true] at hmatch
    have := hmatch.1.1.1
    simp only [if_neg (by simp : ¬(f = Freq.yearly ∧
      (ro.bymonthday = none ∧ ro.byweekday = none) ∧ (some [m] : Option (List Int)) = none))] at this
    simpa using this
  have h0 : 0 ≤ ro.dtstart % msPerDay := Int.emod_nonneg _ (by norm_num [msPerDay])
  have h1 : ro.dtstart % msPerDay < msPerDay := Int.emod_lt_of_pos _ (by norm_num [msPerDay])
  have hday : t / msPerDay = day := by
    rw [ht]
    simp only [msPerDay] at h0 h1 ⊢
    omega
  simp only [utcMonth, hday, hmOk]

theorem mem_timedBaseOccs {z : Zone} {ev : EventRecord} {r : RRuleData} {f : Freq}
    {sr er : Int} {url : String} {o : Occurrence}
    (h : o ∈ timedBaseOccs z ev r f sr er url) :
    ∃ date, date ∈ timedDates ev r f sr er ∧
      o = timedBaseOcc z ev (adjustEndForAllDayEvents ev - ev.start) url date ∧
      ¬ (ev.recurrences.map (fun ov => ov.recurrenceid)).contains date = true ∧
      ¬ (ev.exdate.map (fun ex => localDay z ex)).contains (localDay z o.start) = true := by
  simp only [timedBaseOccs] at h
  by_cases hg : rruleHasOccInClosed (rewrittenTimedOptions ev r) f sr er = true
  · rw [if_pos hg] at h
    rw [List.mem_filterMap] at h
    obtain ⟨date, hdate, heq⟩ := h
    by_cases h1 : (ev.recurrences.map (fun ov => ov.recurrenceid)).contains date = true
    · rw [if_pos h1] at heq
      exact absurd heq (by simp)
    · rw [if_neg h1] at heq
      by_cases h2 : (ev.exdate.map (fun ex => localDay z ex)).contains
          (localDay z (timedBaseOcc z ev (adjustEndForAllDayEvents ev - ev.start) url date).start)
            = true
      · rw [if_pos h2] at heq
        exact absurd heq (by simp)
      · rw [if_neg h2] at heq
        have ho : timedBaseOcc z ev (adjustEndForAllDayEvents ev - ev.start) url date = o :=
          Option.some.inj heq
        subst ho
        exact ⟨date, hdate, rfl, h1, h2⟩
  · rw [if_neg hg] at h
    exact absurd h (List.not_mem_nil o)

theorem mem_overridePart {ev : EventRecord} {sr er : Int} {url : String} {o : Occurrence}
    (h : o ∈ overridePart ev sr er url) :
    ∃ ov, ov ∈ ev.recurrences ∧ sr ≤ ov.start ∧ ov.start ≤ er ∧
      o = overrideOccurrence ev ov url := by
  simp only [overridePart] at h
  rw [List.mem_filterMap] at h
  obtain ⟨ov, hov, heq⟩ := h
  split at heq
  · next hcond => exact ⟨ov, hov, hcond.1, hcond.2, (Option.some.inj heq).symm⟩
  · exact absurd heq (by simp)

theorem mem_allDayBaseOccs {z : Zone} {ev : EventRecord} {ro : RuleOptions} {f : Freq}
    {sr er : Int} {url : String} {o : Occurrence}
    (h : o ∈ allDayBaseOccs z ev ro f sr er url) :
    ∃ day, day ∈ allDayRuleDays ro f sr er ∧
      o = allDayBaseOcc z ev (ev.endTime - ev.start) url day ∧
      sr ≤ midnightInstant z day ∧ midnightInstant z day ≤ er ∧
      ¬ (ev.exdate.map (fun ex => localDay z ex)).contains day = true := by
  simp only [allDayBaseOccs] at h
  by_cases hg : rruleHasOccInClosed ro f sr er = true
  · rw [if_pos hg] at h
    rw [List.mem_filterMap] at h
    obtain ⟨day, hday, heq⟩ := h
    by_cases h1 : midnightInstant z day < sr ∨ er < midnightInstant z day
    · rw [if_pos h1] at heq
      exact absurd heq (by simp)
    · rw [if_neg h1] at heq
      by_cases h2 : (ev.exdate.map (fun ex => localDay z ex)).contains day = true
      · rw [if_pos h2] at heq
        exact absurd heq (by simp)
      · rw [if_neg h2] at heq
        have ho : allDayBaseOcc z ev (ev.endTime - ev.start) url day = o :=
          Option.some.inj heq
        subst ho
        push_neg at h1
        exact ⟨day, hday, rfl, h1.1, h1.2, h2⟩
  · rw [if_neg hg] at h
    exact absurd h (List.not_mem_nil o)

theorem mem_nonRecurringAllDay {z : Zone} {ev : EventRecord} {sr er : Int} {url : String}
    {o : Occurrence} (hd : ev.datetype = DateType.date)
    (hlt : ev.start < adjustEndForAllDayEvents ev)
    (h : o ∈ materializeNonRecurring z ev sr er url) :
    ∃ day, day ∈ daysFromTo (localDay z ev.start) (localDay z (adjustEndForAllDayEvents ev)) ∧
      o = allDayOcc z ev url day ∧
      sr ≤ midnightInstant z day ∧ midnightInstant z day ≤ er := by
  simp only [materializeNonRecurring] at h
  rw [if_pos ⟨hd, hlt⟩] at h
  rw [List.mem_filterMap] at h
  obtain ⟨day, hday, heq⟩ := h
  split at heq
  · next hcond => exact ⟨day, hday, (Option.some.inj heq).symm, hcond.1, hcond.2⟩
  · exact absurd heq (by simp)

/-! ### Claim C1 -/

/-- C1 (amended): for every zone, anchor instant and rrule-generated date,
whenever the corrected instant actually attains the transplanted wall-clock
time (which holds except when the anchor's time of day falls into a
spring-forward gap on the occurrence's local date), the occurrence's local
wall-clock hour/minute/second equal the anchor's; and the scenario
FREQ=WEEKLY;BYDAY=TU anchored 2024-10-29T20:30 America/New_York with window
[2024-10-28, 2024-11-06) materializes exactly two occurrences, with UTC starts
2024-10-30T00:30:00Z and 2024-11-06T01:30:00Z. -/
theorem claim1_amended :
    (∀ (z : Zone) (anchor date : Int),
        z.toWall (correctedStartInstant z anchor date)
          = setHMS (z.toWall date) (localHour z anchor) (localMinute z anchor)
              (localSecond z anchor) →
        localHMS z (correctedStartInstant z anchor date) = localHMS z anchor)
    ∧ (parseIcsData nyZone [c1Event] c1Sr c1Er "u").toOption.map
        (fun l => l.map (fun o => (o.start, o.endTime)))
        = some [(mkUtc 2024 10 30 0 30 0 0, mkUtc 2024 10 30 1 30 0 0),
                (mkUtc 2024 11 6 1 30 0 0, mkUtc 2024 11 6 2 30 0 0)] := by
  constructor
  · intro z anchor date h
    have hh := wallHour_bounds (z.toWall anchor)
    have hm := wallMinute_bounds (z.toWall anchor)
    have hs := wallSecond_bounds (z.toWall anchor)
    have key := wallHMS_setHMS (z.toWall date) (localHour z anchor) (localMinute z anchor)
      (localSecond z anchor) hh.1 hh.2 hm.1 hm.2 hs.1 hs.2
    simp only [localHMS, localHour, localMinute, localSecond] at key h ⊢
    rw [h]
    simp only [Prod.mk.injEq]
    exact ⟨key.1, key.2.1, key.2.2⟩
  · decide

/-- C1 witness: the general conjunct applied to the America/New_York anchor
2024-10-30T00:30Z and the generated date 2024-11-06T00:30Z, on the other side
of the 2024 fall-back transition. -/
theorem claim1_witness :
    localHMS nyZone
        (correctedStartInstant nyZone (mkUtc 2024 10 30 0 30 0 0) (mkUtc 2024 11 6 0 30 0 0))
      = localHMS nyZone (mkUtc 2024 10 30 0 30 0 0) :=
  claim1_amended.1 nyZone (mkUtc 2024 10 30 0 30 0 0) (mkUtc 2024 11 6 0 30 0 0) (by decide)

/-- C1 counterexample: a daily 02:30 America/New_York event crossing the 2025
spring-forward transition.  The materialized occurrence on 2025-03-09 starts at
local 03:30 (the 02:30 wall time does not exist on that date), so its local
wall-clock start differs from the anchor's. -/
theorem claim1_counterexample :
    (parseIcsData nyZone [c1gEvent] c1gSr c1gEr "u").toOption.map
        (fun l => l.map (fun o => (o.start, localHour nyZone o.start)))
      = some [(mkUtc 2025 3 8 7 30 0 0, 2), (mkUtc 2025 3 9 7 30 0 0, 3),
              (mkUtc 2025 3 10 6 30 0 0, 2)]
    ∧ localHMS nyZone c1gEvent.start = (2, 30, 0)
    ∧ localHour nyZone (mkUtc 2025 3 9 7 30 0 0) ≠ localHour nyZone c1gEvent.start := by
  exact ⟨by decide, by decide, by decide⟩

/-! ### Claim C4 -/

/-- C4 (confirmed): a yearly rule with no BYMONTH gets
`bymonth = [month of the anchor start]` injected by the options builder; every
occurrence the injected rule generates falls in that month; and the yearly
all-day BYMONTHDAY=8 scenario anchored 2024-12-08 over [2024-11-01, 2025-02-01)
yields exactly one occurrence, in December. -/
theorem claim4_confirmed :
    (∀ (r : RRuleData) (s : Int), r.freq = some Freq.yearly → r.bymonth = none →
        (buildRuleOptions r s).bymonth = some [utcMonth s])
    ∧ (∀ (r : RRuleData) (s upTo t : Int), r.freq = some Freq.yearly → r.bymonth = none →
        t ∈ rruleOccs (buildRuleOptions r s) Freq.yearly upTo → utcMonth t = utcMonth s)
    ∧ (parseIcsData nyZone [c4Event] c4Sr c4Er "u").toOption.map
        (fun l => l.map (fun o => (o.start, localMonth nyZone o.start, o.allDay)))
      = some [(mkUtc 2024 12 8 5 0 0 0, 12, some true)] := by
  refine ⟨?_, ?_, by decide⟩
  · intro r s hf hbm
    simp [buildRuleOptions, hf, hbm]
  · intro r s upTo t hf hbm hmem
    have hbm2 : (buildRuleOptions r s).bymonth = some [utcMonth s] := by
      simp [buildRuleOptions, hf, hbm]
    exact rruleOccs_month hbm2 hmem

/-- C4 witness: the injection and month-restriction conjuncts applied to the
concrete FREQ=YEARLY;BYMONTHDAY=8 rule anchored 2024-12-08. -/
theorem claim4_witness :
    (buildRuleOptions c4Rule c4Event.start).bymonth = some [utcMonth c4Event.start]
    ∧ utcMonth (mkUtc 2024 12 8 5 0 0 0) = utcMonth c4Event.start :=
  ⟨claim4_confirmed.1 c4Rule c4Event.start rfl rfl,
   claim4_confirmed.2.1 c4Rule c4Event.start (mkUtc 2025 2 2 5 0 0 0)
     (mkUtc 2024 12 8 5 0 0 0) rfl rfl (by decide)⟩

/-! ### Claim C2 -/

/-- C2 (amended): for a recurring timed event with a single override anchored
at local date D, the materialized output contains exactly one occurrence on D,
carrying the override's fields, provided the override's start itself lies on D
and inside the window, and every base-rule candidate whose corrected local date
is D has exactly the override's RECURRENCE-ID instant (the matching at line 168
is by exact instant, which holds when the anchor and the overridden slot lie on
the same side of every DST transition). -/
theorem claim2_amended :
    ∀ (z : Zone) (ev : EventRecord) (r : RRuleData) (f : Freq) (sr er : Int)
      (url : String) (ov : OverrideRecord),
      ev.rrule = some r → ev.datetype = DateType.dateTime → r.freq = some f →
      ev.recurrences = [ov] →
      sr ≤ ov.start → ov.start ≤ er →
      localDay z ov.start = localDay z ov.recurrenceid →
      (∀ t ∈ timedDates ev r f sr er,
          localDay z (correctedStartInstant z ev.start t) = localDay z ov.recurrenceid →
          t = ov.recurrenceid) →
      (parseOneEvent z ev sr er url).toOption.map
          (occsOnDay z (localDay z ov.recurrenceid))
        = some [overrideOccurrence ev ov url] := by
  intro z ev r f sr er url ov hr hd hf hrec h2 h3 h4 h5
  have hdd : ¬ ev.datetype = DateType.date := by rw [hd]; intro hc; exact absurd hc (by decide)
  simp only [parseOneEvent, hr, if_neg hdd, materializeTimedRecurring, hf, Except.toOption,
    Option.map_some']
  refine congrArg some ?_
  have hov : overridePart ev sr er url = [overrideOccurrence ev ov url] := by
    simp [overridePart, hrec, h2, h3]
  have hbase : occsOnDay z (localDay z ov.recurrenceid) (timedBaseOccs z ev r f sr er url)
      = [] := by
    apply occsOnDay_eq_nil
    intro o hmem hcontra
    obtain ⟨date, hdate, ho, hmod, _⟩ := mem_timedBaseOccs hmem
    have hstart : o.start = correctedStartInstant z ev.start date := by rw [ho]; rfl
    rw [hstart] at hcontra
    have := h5 date hdate hcontra
    apply hmod
    rw [this, hrec]
    simp
  rw [occsOnDay_append, hov, hbase, List.append_nil]
  have hovday : localDay z (overrideOccurrence ev ov url).start = localDay z ov.recurrenceid := by
    simpa [overrideOccurrence] using h4
  simp [occsOnDay, hovday]

/-- C2 witness: the daily 10:00 America/New_York event anchored 2024-11-10 with
the 2024-11-11 instance overridden; the window covers all three instances and
no DST transition separates the anchor from the overridden slot. -/
theorem claim2_witness :
    (parseOneEvent nyZone c2Event c2Sr c2Er "u").toOption.map
        (occsOnDay nyZone (localDay nyZone c2Ov.recurrenceid))
      = some [overrideOccurrence c2Event c2Ov "u"] :=
  claim2_amended nyZone c2Event dailyCount3Rule Freq.daily c2Sr c2Er "u" c2Ov
    rfl rfl rfl rfl (by decide) (by decide) (by decide) (by decide)

/-- C2 counterexample: the weekly DST-crossing event with the 2024-11-05 slot
overridden.  The base rule's UTC candidate for that slot (2024-11-06T00:30Z)
differs from the RECURRENCE-ID instant (2024-11-06T01:30Z), so the base
candidate is not suppressed: the local date 2024-11-05 receives two
occurrences, one of them carrying the base summary. -/
theorem claim2_counterexample :
    (parseIcsData nyZone [c2xEvent] c1Sr c1Er "u").toOption.map
        (fun l => (occsOnDay nyZone (localDay nyZone c2xOv.recurrenceid) l).map
          (fun o => (o.title, o.start)))
      = some [(some "Rescheduled", mkUtc 2024 11 6 2 0 0 0),
              (some "Recurring DST Event", mkUtc 2024 11 6 1 30 0 0)] := by
  decide

/-! ### Claim C3 -/

theorem filterMap_exdate_split2 {α : Type} (days : List α) (win : α → Prop)
    [DecidablePred win] (mk : α → Occurrence) (q : Occurrence → Bool) (c : α → Bool)
    (hagree : ∀ d ∈ days, q (mk d) = c d) :
    days.filterMap (fun d => if win d then none
        else if c d = true then none else some (mk d))
      = (days.filterMap (fun d => if win d then none else some (mk d))).filter
          (fun o => !q o) := by
  induction days with
  | nil => rfl
  | cons d t ih =>
      have hq := hagree d (List.mem_cons_self d t)
      have iht := ih (fun b hb => hagree b (List.mem_cons_of_mem d hb))
      by_cases hw : win d
      · simp [hw, iht]
      · by_cases hc : c d = true
        · simp [hw, hc, hq, iht]
        · simp [hw, hc, hq, iht]

/-- C3 (amended): no base-rule occurrence of a recurring event (timed or
all-day) ever falls on the local calendar date of an exception instant, and the
base-rule occurrences with exceptions are exactly the base-rule occurrences of
the same event without exceptions, filtered on those local dates (so occurrences
on other dates are unaffected).  Override occurrences are pushed without any
exception check (see the counterexample), so the guarantee holds for the base
rule only.  For the all-day path the generated days must round-trip through
local midnight (true of real zones at all midnights). -/
theorem claim3_amended :
    (∀ (z : Zone) (ev : EventRecord) (r : RRuleData) (f : Freq) (sr er : Int) (url : String),
        (∀ o ∈ timedBaseOccs z ev r f sr er url, ∀ ex ∈ ev.exdate,
            localDay z o.start ≠ localDay z ex)
        ∧ timedBaseOccs z ev r f sr er url
            = (timedBaseOccs z (clearExdate ev) r f sr er url).filter
                (fun o => !(ev.exdate.map (fun ex => localDay z ex)).contains (localDay z o.start)))
    ∧ (∀ (z : Zone) (ev : EventRecord) (ro : RuleOptions) (f : Freq) (sr er : Int) (url : String),
        (∀ day ∈ allDayRuleDays ro f sr er, localDay z (midnightInstant z day) = day) →
        (∀ o ∈ allDayBaseOccs z ev ro f sr er url, ∀ ex ∈ ev.exdate,
            localDay z o.start ≠ localDay z ex)
        ∧ allDayBaseOccs z ev ro f sr er url
            = (allDayBaseOccs z (clearExdate ev) ro f sr er url).filter
                (fun o => !(ev.exdate.map (fun ex => localDay z ex)).contains (localDay z o.start))) := by
  constructor
  · intro z ev r f sr er url
    constructor
    · intro o hmem ex hex heq
      obtain ⟨date, _, _, _, hexd⟩ := mem_timedBaseOccs hmem
      apply hexd
      have hmemmap : localDay z ex ∈ ev.exdate.map (fun e => localDay z e) :=
        List.mem_map_of_mem _ hex
      rw [← heq] at hmemmap
      exact List.elem_eq_true_of_mem hmemmap
    · simp only [timedBaseOccs]
      rw [show rewrittenTimedOptions (clearExdate ev) r = rewrittenTimedOptions ev r from rfl]
      by_cases hg : rruleHasOccInClosed (rewrittenTimedOptions ev r) f sr er = true
      · rw [if_pos hg, if_pos hg]
        rw [show timedDates (clearExdate ev) r f sr er = timedDates ev r f sr er from rfl]
        rw [show (clearExdate ev).exdate = ([] : List Int) from rfl]
        rw [show (clearExdate ev).recurrences = ev.recurrences from rfl]
        rw [show adjustEndForAllDayEvents (clearExdate ev) = adjustEndForAllDayEvents ev from rfl]
        rw [show (clearExdate ev).start = ev.start from rfl]
        simp only [List.map_nil, List.contains_nil, Bool.false_eq_true, if_false]
        exact filterMap_exdate_split2 (timedDates ev r f sr er)
          (fun date => (ev.recurrences.map (fun ov => ov.recurrenceid)).contains date = true)
          (fun date => timedBaseOcc z (clearExdate ev)
            (adjustEndForAllDayEvents ev - ev.start) url date)
          (fun o => (ev.exdate.map (fun e => localDay z e)).contains (localDay z o.start))
          (fun date => (ev.exdate.map (fun e => localDay z e)).contains
            (localDay z (timedBaseOcc z ev (adjustEndForAllDayEvents ev - ev.start) url date).start))
          (fun date _ => rfl)
      · rw [if_neg hg, if_neg hg]
        rfl
  · intro z ev ro f sr er url hco
    constructor
    · intro o hmem ex hex heq
      obtain ⟨day, hdaymem, ho, _, _, hexd⟩ := mem_allDayBaseOccs hmem
      apply hexd
      have hstart : localDay z o.start = day := by
        rw [ho]
        exact hco day hdaymem
      have hmemmap : localDay z ex ∈ ev.exdate.map (fun e => localDay z e) :=
        List.mem_map_of_mem _ hex
      rw [← heq, hstart] at hmemmap
      exact List.elem_eq_true_of_mem hmemmap
    · simp only [allDayBaseOccs]
      by_cases hg : rruleHasOccInClosed ro f sr er = true
      · rw [if_pos hg, if_pos hg]
        rw [show (clearExdate ev).exdate = ([] : List Int) from rfl]
        rw [show (clearExdate ev).endTime = ev.endTime from rfl]
        rw [show (clearExdate ev).start = ev.start from rfl]
        refine filterMap_exdate_split2 (allDayRuleDays ro f sr er)
          (fun day => midnightInstant z day < sr ∨ er < midnightInstant z day)
          (fun day => allDayBaseOcc z (clearExdate ev) (ev.endTime - ev.start) url day)
          (fun o => (ev.exdate.map (fun e => localDay z e)).contains (localDay z o.start))
          (fun day => (ev.exdate.map (fun e => localDay z e)).contains day)
          (fun day hday => ?_)
        have hmid : localDay z (allDayBaseOcc z (clearExdate ev)
            (ev.endTime - ev.start) url day).start = day := hco day hday
        simp only [hmid]
      · rw [if_neg hg, if_neg hg]
        rfl

/-- C3 witness: the first conjunct applied to the daily event with the
2024-11-02 EXDATE, at its 2024-11-01 base occurrence. -/
theorem claim3_witness :
    localDay nyZone (timedBaseOcc nyZone c3Event
        (adjustEndForAllDayEvents c3Event - c3Event.start) "u" c3Event.start).start
      ≠ localDay nyZone (mkUtc 2024 11 2 13 0 0 0) :=
  (claim3_amended.1 nyZone c3Event dailyCount3Rule Freq.daily c3Sr c3Er "u").1
    _ (by decide) (mkUtc 2024 11 2 13 0 0 0) (by decide)

/-- C3 counterexample: the same event with, additionally, an override record
whose replacement start lies on the cancelled date 2024-11-02.  The override is
pushed without consulting the exception set, so the returned list contains an
occurrence whose local calendar date equals the exception's local date. -/
theorem claim3_counterexample :
    (parseIcsData nyZone [c3xEvent] c3Sr c3Er "u").toOption.map
        (fun l => l.map (fun o => localDay nyZone o.start))
      = some [daysFromCivil 2024 11 2, daysFromCivil 2024 11 1, daysFromCivil 2024 11 3]
    ∧ c3xEvent.exdate = [mkUtc 2024 11 2 13 0 0 0]
    ∧ localDay nyZone (mkUtc 2024 11 2 13 0 0 0) = daysFromCivil 2024 11 2 := by
  exact ⟨by decide, rfl, by decide⟩

/-! ### Claim C5 -/

theorem length_daysFromTo (a b : Int) : (daysFromTo a b).length = (b - a + 1).toNat := by
  simp [daysFromTo]

/-- C5 (confirmed): a non-recurring all-day event is split into one occurrence
per local calendar day of its inclusive span, a day being emitted exactly when
its local midnight lies in the closed query window; when the window contains
every midnight of the span, exactly N occurrences result, one per consecutive
day, each built by `allDayOcc` (start local midnight, end local end-of-day,
allDay true). -/
theorem claim5_confirmed :
    (∀ (z : Zone) (ev : EventRecord) (sr er : Int) (url : String),
        ev.rrule = none → ev.datetype = DateType.date →
        ev.start < adjustEndForAllDayEvents ev →
        parseIcsData z [ev] sr er url = Except.ok
          ((daysFromTo (localDay z ev.start) (localDay z (adjustEndForAllDayEvents ev))).filterMap
            (fun day =>
              if sr ≤ midnightInstant z day ∧ midnightInstant z day ≤ er
              then some (allDayOcc z ev url day) else none)))
    ∧ (∀ (z : Zone) (ev : EventRecord) (sr er : Int) (url : String),
        ev.rrule = none → ev.datetype = DateType.date →
        ev.start < adjustEndForAllDayEvents ev →
        (∀ day ∈ daysFromTo (localDay z ev.start) (localDay z (adjustEndForAllDayEvents ev)),
            sr ≤ midnightInstant z day ∧ midnightInstant z day ≤ er) →
        parseIcsData z [ev] sr er url = Except.ok
            ((daysFromTo (localDay z ev.start) (localDay z (adjustEndForAllDayEvents ev))).map
              (allDayOcc z ev url))
          ∧ ((daysFromTo (localDay z ev.start) (localDay z (adjustEndForAllDayEvents ev))).map
                (allDayOcc z ev url)).length
              = (localDay z (adjustEndForAllDayEvents ev) - localDay z ev.start + 1).toNat) := by
  have hmain : ∀ (z : Zone) (ev : EventRecord) (sr er : Int) (url : String),
      ev.rrule = none → ev.datetype = DateType.date →
      ev.start < adjustEndForAllDayEvents ev →
      parseIcsData z [ev] sr er url = Except.ok
        ((daysFromTo (localDay z ev.start) (localDay z (adjustEndForAllDayEvents ev))).filterMap
          (fun day =>
            if sr ≤ midnightInstant z day ∧ midnightInstant z day ≤ er
            then some (allDayOcc z ev url day) else none)) := by
    intro z ev sr er url hrr hd hlt
    rw [parseIcsData_singleton]
    simp only [parseOneEvent, hrr, materializeNonRecurring]
    rw [if_pos ⟨hd, hlt⟩]
  refine ⟨hmain, ?_⟩
  intro z ev sr er url hrr hd hlt hwin
  constructor
  · rw [hmain z ev sr er url hrr hd hlt]
    rw [filterMap_guard_all _ _ _ hwin]
  · rw [List.length_map, length_daysFromTo]

/-- C5 witness: the 2024-11-04..06 Vacation event over a window containing the
whole span yields the three per-day occurrences. -/
theorem claim5_witness :
    parseIcsData nyZone [c5Event] c5Sr c5Er "u" = Except.ok
        ((daysFromTo (localDay nyZone c5Event.start)
            (localDay nyZone (adjustEndForAllDayEvents c5Event))).map
          (allDayOcc nyZone c5Event "u"))
      ∧ ((daysFromTo (localDay nyZone c5Event.start)
            (localDay nyZone (adjustEndForAllDayEvents c5Event))).map
          (allDayOcc nyZone c5Event "u")).length
        = (localDay nyZone (adjustEndForAllDayEvents c5Event)
            - localDay nyZone c5Event.start + 1).toNat :=
  claim5_confirmed.2 nyZone c5Event c5Sr c5Er "u" rfl rfl (by decide) (by decide)

/-! ### Claim C6 -/

/-- C6 (amended): the aggregation entry point returns the per-feed occurrence
lists concatenated in input feed order (each feed in its own event order); no
sorting by start time is applied anywhere on the way to the caller. -/
theorem claim6_amended :
    ∀ (z : Zone) (feeds : List Feed) (sr er : Int) (L : List Occurrence),
      getCalendarEventsFromUrls z feeds sr er = Except.ok L →
      (∀ f ∈ feeds, (feedParsed z f sr er).isOk = true)
      ∧ L = (feeds.map (fun f => (feedParsed z f sr er).toOption.getD [])).flatten := by
  intro z feeds sr er
  induction feeds with
  | nil =>
      intro L h
      simp only [getCalendarEventsFromUrls] at h
      refine ⟨by simp, ?_⟩
      simp [← Option.some.inj (congrArg Except.toOption h)]
  | cons f rest ih =>
      intro L h
      simp only [getCalendarEventsFromUrls] at h
      cases hf : feedParsed z f sr er with
      | error e => rw [hf] at h; exact absurd h (by simp)
      | ok l1 =>
          rw [hf] at h
          cases hr : getCalendarEventsFromUrls z rest sr er with
          | error e => rw [hr] at h; exact absurd h (by simp)
          | ok l2 =>
              rw [hr] at h
              have hL : l1 ++ l2 = L := Except.ok.inj h
              obtain ⟨h1, h2⟩ := ih l2 hr
              constructor
              · intro g hg
                rcases List.mem_cons.mp hg with hq | hq
                · rw [hq, hf]; rfl
                · exact h1 g hq
              · rw [← hL, h2]
                simp [hf, Except.toOption]

/-- C6 witness: the single unsorted feed, aggregated. -/
theorem claim6_witness :
    (∀ f ∈ [c6Feed], (feedParsed nyZone f c5Sr c5Er).isOk = true)
    ∧ c6ResultList
        = ([c6Feed].map (fun f => (feedParsed nyZone f c5Sr c5Er).toOption.getD [])).flatten :=
  claim6_amended nyZone [c6Feed] c5Sr c5Er c6ResultList rfl

/-- C6 counterexample: a feed listing a later event before an earlier one.  The
aggregation returns the occurrences in that order, so the output is not sorted
by start time. -/
theorem claim6_counterexample :
    (getCalendarEventsFromUrls nyZone [c6Feed] c5Sr c5Er).toOption.map
        (fun l => l.map (fun o => o.start))
      = some [mkUtc 2024 11 5 15 0 0 0, mkUtc 2024 11 4 15 0 0 0]
    ∧ (getCalendarEventsFromUrls nyZone [c6Feed] c5Sr c5Er).toOption.map
        (fun l => decide (l.Pairwise (fun a b => a.start ≤ b.start)))
      = some false := by
  exact ⟨by decide, by decide⟩

/-! ### Claim C7 -/

/-- C7 (amended): the aggregation succeeds exactly when every feed fetches,
decodes and parses successfully; a single failing feed makes the whole
aggregate call fail, discarding the other feeds' occurrences. -/
theorem claim7_amended :
    ∀ (z : Zone) (feeds : List Feed) (sr er : Int),
      (getCalendarEventsFromUrls z feeds sr er).isOk
        = feeds.all (fun f => (feedParsed z f sr er).isOk) := by
  intro z feeds sr er
  induction feeds with
  | nil => rfl
  | cons f rest ih =>
      simp only [getCalendarEventsFromUrls, List.all_cons]
      rw [← ih]
      cases feedParsed z f sr er with
      | error e => rfl
      | ok l1 =>
          cases getCalendarEventsFromUrls z rest sr er with
          | error e => rfl
          | ok l2 => rfl

/-- C7 counterexample: with one failing feed and one healthy feed, the
aggregate call fails even though the healthy feed alone contributes an
occurrence. -/
theorem claim7_counterexample :
    (getCalendarEventsFromUrls nyZone [c7BadFeed, c7GoodFeed] c5Sr c5Er).isOk = false
    ∧ (getCalendarEventsFromUrls nyZone [c7GoodFeed] c5Sr c5Er).toOption.map List.length
        = some 1 := by
  exact ⟨rfl, by decide⟩

/-! ### Claim C8 -/

/-- C8: evaluation of the code on an all-day recurring event whose rule has no
recognizable frequency.  The repository logs a warning (lines 240-242) but then
still constructs the rule (line 245), whose option parsing raises
`Invalid frequency`; the error propagates out of `parseIcsData` instead of the
event degrading to non-recurring. -/
theorem claim8_code_bug :
    parseIcsData nyZone [c8Event] c5Sr c5Er "u" = Except.error "Invalid frequency"
    ∧ (c8Event.rrule.map (fun r => r.freq)) = some none := by
  exact ⟨rfl, rfl⟩

/-! ### Claim C9 -/

/-- C9 (amended): for a well-formed event record (timed events end strictly
after they start, all-day events span at least one full exclusive day with
sanely ordered local midnights, override records end strictly after they
start), every occurrence produced by any of the four classification paths
satisfies start < end. -/
theorem claim9_amended :
    ∀ (z : Zone) (ev : EventRecord) (sr er : Int) (url : String) (L : List Occurrence),
      EventWf z ev → parseOneEvent z ev sr er url = Except.ok L →
      ∀ o ∈ L, o.start < o.endTime := by
  intro z ev sr er url L hwf hok o hmem
  obtain ⟨hwfT, hwfD, hwfOv⟩ := hwf
  cases hrr : ev.rrule with
  | none =>
      simp only [parseOneEvent, hrr] at hok
      have hL : materializeNonRecurring z ev sr er url = L := Except.ok.inj hok
      rw [← hL] at hmem
      cases hdt : ev.datetype with
      | date =>
          obtain ⟨hspan, hgap⟩ := hwfD hdt
          have hlt : ev.start < adjustEndForAllDayEvents ev := by
            simp only [adjustEndForAllDayEvents, if_pos hdt, msPerDay] at hspan ⊢
            omega
          obtain ⟨day, hday, ho, _, _⟩ := mem_nonRecurringAllDay hdt hlt hmem
          rw [ho]
          simp only [allDayOcc]
          have := hgap day hday
          omega
      | dateTime =>
          have hne : ¬ (ev.datetype = DateType.date ∧ ev.start < adjustEndForAllDayEvents ev) := by
            simp [hdt]
          simp only [materializeNonRecurring, if_neg hne] at hmem
          by_cases hov : ev.start < er ∧ sr < adjustEndForAllDayEvents ev
          · rw [if_pos hov] at hmem
            rw [List.mem_singleton.mp hmem]
            simp only [nonRecTimedOcc, adjustEndForAllDayEvents]
            rw [if_neg (by simp [hdt])]
            exact hwfT hdt
          · rw [if_neg hov] at hmem
            exact absurd hmem (List.not_mem_nil o)
  | some r =>
      cases hdt : ev.datetype with
      | date =>
          simp only [parseOneEvent, hrr, if_pos hdt, materializeAllDayRecurring] at hok
          cases hfq : (buildRuleOptions r ev.start).freq with
          | none => rw [hfq] at hok; exact absurd hok ( by simp)
          | some f =>
              rw [hfq] at hok
              have hL : allDayBaseOccs z ev (buildRuleOptions r ev.start) f sr er url = L :=
                Except.ok.inj hok
              rw [← hL] at hmem
              obtain ⟨day, _, ho, _, _, _⟩ := mem_allDayBaseOccs hmem
              rw [ho]
              simp only [allDayBaseOcc]
              have hspan := (hwfD hdt).1
              simp only [msPerDay] at hspan
              omega
      | dateTime =>
          simp only [parseOneEvent, hrr, if_neg (show ¬ ev.datetype = DateType.date by simp [hdt]),
            materializeTimedRecurring] at hok
          cases hfq : r.freq with
          | none => rw [hfq] at hok; exact absurd hok (by simp)
          | some f =>
              rw [hfq] at hok
              have hL : overridePart ev sr er url ++ timedBaseOccs z ev r f sr er url = L :=
                Except.ok.inj hok
              rw [← hL] at hmem
              rcases List.mem_append.mp hmem with hmem2 | hmem2
              · obtain ⟨ov, hovmem, _, _, ho⟩ := mem_overridePart hmem2
                rw [ho]
                exact hwfOv ov hovmem
              · obtain ⟨date, _, ho, _, _⟩ := mem_timedBaseOccs hmem2
                rw [ho]
                simp only [timedBaseOcc]
                have h1 := hwfT hdt
                have h2 : adjustEndForAllDayEvents ev = ev.endTime := by
                  simp [adjustEndForAllDayEvents, hdt]
                omega

/-- C9 witness: the invariant applied to the overridden daily event, at its
override occurrence. -/
theorem claim9_witness :
    (overrideOccurrence c2Event c2Ov "u").start < (overrideOccurrence c2Event c2Ov "u").endTime :=
  claim9_amended nyZone c2Event c2Sr c2Er "u" c9WitnessList
    ⟨fun _ => by decide, fun h => absurd h (by decide), by decide⟩
    rfl (overrideOccurrence c2Event c2Ov "u") (by decide)

/-- C9 counterexample: a zero-length timed event inside the window is returned
as an occurrence with start equal to end, violating the strict invariant. -/
theorem claim9_counterexample :
    (parseOneEvent nyZone c9ZeroEvent c5Sr c5Er "u").toOption.map
        (fun l => l.map (fun o => (o.start, o.endTime, decide (o.start < o.endTime))))
      = some [(mkUtc 2024 11 4 15 0 0 0, mkUtc 2024 11 4 15 0 0 0, false)] := by
  decide

/-! ### Claim C10 -/

/-- C10 (confirmed): base-rule occurrences of a recurring timed event carry
only title/start/end/allDay/calendarUrl (description and location absent),
while override occurrences carry the override-or-base description and location
and non-recurring timed occurrences carry the event's description and
location; override occurrences inside the window are indeed part of the
output. -/
theorem claim10_confirmed :
    (∀ (z : Zone) (ev : EventRecord) (r : RRuleData) (f : Freq) (sr er : Int) (url : String),
        ∀ o ∈ timedBaseOccs z ev r f sr er url,
          o.description = none ∧ o.location = none ∧ o.allDay = some false
            ∧ o.title = ev.summary)
    ∧ (∀ (ev : EventRecord) (ov : OverrideRecord) (url : String),
        (overrideOccurrence ev ov url).description = jsOr ov.description ev.description
        ∧ (overrideOccurrence ev ov url).location = jsOr ov.location ev.location)
    ∧ (∀ (z : Zone) (ev : EventRecord) (sr er : Int) (url : String),
        ev.rrule = none → ev.datetype = DateType.dateTime →
        ev.start < er → sr < adjustEndForAllDayEvents ev →
        parseOneEvent z ev sr er url = Except.ok [nonRecTimedOcc ev url]
        ∧ (nonRecTimedOcc ev url).description = ev.description
        ∧ (nonRecTimedOcc ev url).location = ev.location)
    ∧ (∀ (ev : EventRecord) (sr er : Int) (url : String) (ov : OverrideRecord),
        ov ∈ ev.recurrences → sr ≤ ov.start → ov.start ≤ er →
        overrideOccurrence ev ov url ∈ overridePart ev sr er url) := by
  refine ⟨?_, ?_, ?_, ?_⟩
  · intro z ev r f sr er url o hmem
    obtain ⟨date, _, ho, _, _⟩ := mem_timedBaseOccs hmem
    rw [ho]
    exact ⟨rfl, rfl, rfl, rfl⟩
  · intro ev ov url
    exact ⟨rfl, rfl⟩
  · intro z ev sr er url hrr hdt h1 h2
    refine ⟨?_, rfl, rfl⟩
    simp only [parseOneEvent, hrr, materializeNonRecurring]
    rw [if_neg (by simp [hdt]), if_pos ⟨h1, h2⟩]
  · intro ev sr er url ov hmem h1 h2
    simp only [overridePart]
    exact List.mem_filterMap.mpr ⟨ov, hmem, by rw [if_pos ⟨h1, h2⟩]⟩

/-- C10 witness: the first conjunct applied at the base occurrence generated
for the weekly event's own anchor date. -/
theorem claim10_witness :
    (timedBaseOcc nyZone c1Event (adjustEndForAllDayEvents c1Event - c1Event.start) "u"
        c1Event.start).description = none
    ∧ (timedBaseOcc nyZone c1Event (adjustEndForAllDayEvents c1Event - c1Event.start) "u"
        c1Event.start).location = none
    ∧ (timedBaseOcc nyZone c1Event (adjustEndForAllDayEvents c1Event - c1Event.start) "u"
        c1Event.start).allDay = some false
    ∧ (timedBaseOcc nyZone c1Event (adjustEndForAllDayEvents c1Event - c1Event.start) "u"
        c1Event.start).title = c1Event.summary :=
  claim10_confirmed.1 nyZone c1Event c1Rule Freq.weekly c1Sr c1Er "u" _ (by decide)

end HomeCalendar
